import Mathlib

/-!
Verification of the `spread_macros` spread-syntax engine.

Shallow embedding of the repository's parsing and expansion code
(`src/common.rs`, `src/anon.rs`, `src/spread.rs`, `proc/src/fn_struct.rs`,
`proc/src/assert_fields_eq.rs`).

Rust token streams are modelled by the inductive `Tok` (identifiers,
literals, punctuation and delimited groups); `syn` parsers become
functions `List Tok → Except String (α × List Tok)`, and `quote!`
expansions become functions producing `List Tok`.  `syn::Expr` (an
opaque nonterminal for this crate) is modelled as the token run the
expression occupies; splicing it with `quote!` re-emits its tokens.
-/

namespace SpreadMacros

/-- A Rust token tree as seen by a procedural macro: identifiers
(keywords included), literals, punctuation and delimited groups.
`marker` is an extra atom standing for an observable position inside an
embedded expression; it is used to count how often an expression is
spliced into generated code, and no generator ever produces one. -/
inductive Tok where
  | ident (s : String)
  | litStr (s : String)
  | amp | gt | lt | plus | comma | colon | colcol | semi
  | dot | dotdot | eq | pound | bang
  | parens (ts : List Tok)
  | brackets (ts : List Tok)
  | braces (ts : List Tok)
  | marker (n : Nat)
deriving Repr

/-- Is this token the comma punctuation?  (`syn::Expr` never contains a
top-level comma, so expression runs stop here.) -/
def Tok.isComma : Tok → Bool
  | .comma => true
  | _ => false

/-- Keywords: `syn::Ident`'s plain parse rejects these, while
`syn::Ident::parse_any` accepts any identifier. -/
def rustKws : List String :=
  ["mut", "in", "self", "let", "fn", "for", "where", "struct", "as", "impl", "pub"]

/-- Interleave comma tokens between the given token runs, as the
`quote!` repetition `#( ... ),*` does. -/
def sepByComma : List (List Tok) → List Tok
  | [] => []
  | [x] => x
  | x :: xs => x ++ Tok.comma :: sepByComma xs

/-! ## Data model (src/common.rs, proc/src/fn_struct.rs) -/

/-- `enum SpreadModifier` of `src/common.rs` (the feature-complete
variant, with the bracketed custom-transform forms).  A custom path is
kept as the token run found between the brackets. -/
inductive SpreadModifier where
  | Ref
  | RefMut
  | Into
  | Clone
  | CloneInto
  | Custom (path : List Tok)
  | CustomRef (path : List Tok)
  | CustomRefMut (path : List Tok)
deriving Repr

/-- `struct Field` of `src/common.rs`: optional `mut` marker, optional
modifier, name, optional explicit value expression. -/
structure Field where
  is_mut : Bool
  modifier : Option SpreadModifier
  name : String
  value : Option (List Tok)
deriving Repr

/-- `struct SpreadList` of `src/common.rs`. -/
structure SpreadList where
  fields_list : List Field
  source : List Tok
  source_ident : String
deriving Repr

/-- `enum SpreadItem` of `src/common.rs`. -/
inductive SpreadItem where
  | Field (f : Field)
  | SpreadList (sl : SpreadList)
  | FinalSpread (source : List Tok)
deriving Repr

/-- `struct Anon` of `src/anon.rs`: the parsed item list. -/
structure Anon where
  items : List SpreadItem
deriving Repr

/-- `struct TypedField` of `proc/src/fn_struct.rs`: `type_ = none`
represents the pseudo-field `self`. -/
structure TypedField where
  modifier : Option SpreadModifier
  name : String
  type_ : Option (List Tok)
  value : Option (List Tok)
deriving Repr

/-! ## Modifier rendering (src/common.rs, `Field::value_with_modifiers`) -/

/-- `Field::value_with_modifiers` of `src/common.rs`: renders the
modifier application to a source expression.  `Into`/`Clone` append
`.into()` / `.clone()`; the custom forms wrap (a reference to) the
source in a call to the bracketed path. -/
def Field.value_with_modifiers (f : Field) (source : List Tok) : List Tok :=
  match f.modifier with
  | some .Ref => Tok.amp :: source
  | some .RefMut => Tok.amp :: Tok.ident "mut" :: source
  | some .Into => source ++ [Tok.dot, Tok.ident "into", Tok.parens []]
  | some .Clone => source ++ [Tok.dot, Tok.ident "clone", Tok.parens []]
  | some .CloneInto =>
      source ++ [Tok.dot, Tok.ident "clone", Tok.parens [],
                 Tok.dot, Tok.ident "into", Tok.parens []]
  | some (.Custom path) => path ++ [Tok.parens source]
  | some (.CustomRef path) => path ++ [Tok.parens (Tok.amp :: source)]
  | some (.CustomRefMut path) =>
      path ++ [Tok.parens (Tok.amp :: Tok.ident "mut" :: source)]
  | none => source

/-- `Field::field_expansion`: `name: <modifier-applied source>`. -/
def Field.field_expansion (f : Field) (source : List Tok) : List Tok :=
  Tok.ident f.name :: Tok.colon :: f.value_with_modifiers source

/-- `SpreadList::field_expansion`: each field drawn from the synthesized
intermediate binding, comma separated. -/
def SpreadList.field_expansion (sl : SpreadList) : List Tok :=
  sepByComma (sl.fields_list.map fun f =>
    f.field_expansion [Tok.ident sl.source_ident, Tok.dot, Tok.ident f.name])

/-- `mut` marker tokens of a field (`#is_mut` splicing). -/
def mutToks (b : Bool) : List Tok := if b then [Tok.ident "mut"] else []

/-- The binding pattern list of `SpreadList::let_expansion`:
`#( #fields_mut #fields_name , )*`. -/
def letPats (fl : List Field) : List Tok :=
  (fl.map fun f => mutToks f.is_mut ++ [Tok.ident f.name, Tok.comma]).flatten

/-- The value tuple of `SpreadList::let_expansion`:
`#( <modifier-applied __source.name> , )*`. -/
def letVals (fl : List Field) : List Tok :=
  (fl.map fun f =>
    f.value_with_modifiers [Tok.ident "__source", Tok.dot, Tok.ident f.name]
      ++ [Tok.comma]).flatten

/-- `SpreadList::let_expansion` of `src/common.rs`:
`let ( pats ) = { let __source = source; ( vals ) };`. -/
def SpreadList.let_expansion (sl : SpreadList) : List Tok :=
  [Tok.ident "let", Tok.parens (letPats sl.fields_list), Tok.eq,
   Tok.braces (Tok.ident "let" :: Tok.ident "__source" :: Tok.eq ::
     sl.source ++ (Tok.semi :: [Tok.parens (letVals sl.fields_list)])),
   Tok.semi]

/-- `SpreadItem::field_expansion` of `src/common.rs`. -/
def SpreadItem.field_expansion : SpreadItem → List Tok
  | .Field f =>
      match f.value with
      | some value => f.field_expansion value
      | none => f.field_expansion [Tok.ident f.name]
  | .SpreadList sl => sl.field_expansion
  | .FinalSpread source => Tok.dotdot :: source

/-- `SpreadItem::let_expansion` of `src/common.rs`; a `FinalSpread`
renders `syn::Error::to_compile_error` tokens. -/
def SpreadItem.let_expansion : SpreadItem → List Tok
  | .Field f =>
      Tok.ident "let" :: mutToks f.is_mut ++ Tok.ident f.name :: Tok.eq ::
        (match f.value with
         | some value => f.value_with_modifiers value
         | none => f.value_with_modifiers [Tok.ident f.name]) ++ [Tok.semi]
  | .SpreadList sl => sl.let_expansion
  | .FinalSpread _ =>
      [Tok.ident "compile_error", Tok.bang,
       Tok.braces [Tok.litStr "`..remaining` is not allowed in this macro"]]

/-! ## Anonymous-type generator (src/anon.rs, `Anon::expand`) -/

/-- Field-name collection of `Anon::expand`: flattening spread-list
members, in first-seen order.  (`FinalSpread` is `unreachable!` there —
the parser rejects it — and contributes nothing here.) -/
def Anon.fields_name (items : List SpreadItem) : List String :=
  (items.map fun it =>
    match it with
    | .Field f => [f.name]
    | .SpreadList sl => sl.fields_list.map Field.name
    | .FinalSpread _ => []).flatten

/-- One fresh generic parameter `T{i}` per field, in order. -/
def Anon.fields_type (names : List String) : List String :=
  names.enum.map fun p => "T" ++ toString p.1

/-- The constant derive attribute `Anon::expand` puts on the synthesized
struct: `#[derive(Copy, Clone, Debug, PartialEq, Eq)]` (the
`serde_derive` feature is off). -/
def anonDeriveAttr : List Tok :=
  [Tok.pound, Tok.brackets [Tok.ident "derive",
    Tok.parens [Tok.ident "Copy", Tok.comma, Tok.ident "Clone", Tok.comma,
      Tok.ident "Debug", Tok.comma, Tok.ident "PartialEq", Tok.comma,
      Tok.ident "Eq"]]]

/-- `struct Anon < T0, ... > { name0: T0, ... }` declaration tokens. -/
def anonStructDecl (names : List String) : List Tok :=
  Tok.ident "struct" :: Tok.ident "Anon" :: Tok.lt ::
    sepByComma ((Anon.fields_type names).map fun t => [Tok.ident t]) ++
    (Tok.gt ::
      [Tok.braces (sepByComma ((names.zip (Anon.fields_type names)).map
        fun p => [Tok.ident p.1, Tok.colon, Tok.ident p.2]))])

/-- The `let_sources` of `Anon::expand`: one binding statement
`let #source_ident = #source;` per spread-list item. -/
def Anon.letSources (items : List SpreadItem) : List Tok :=
  (items.filterMap fun it =>
    match it with
    | .SpreadList sl =>
        some (Tok.ident "let" :: Tok.ident sl.source_ident :: Tok.eq ::
          sl.source ++ [Tok.semi])
    | _ => none).flatten

/-- `Anon::expand` of `src/anon.rs`: one brace-delimited block holding
the derive attribute, the synthesized generic struct declaration, the
intermediate source bindings, and the struct literal. -/
def Anon.expand (a : Anon) : List Tok :=
  [Tok.braces (anonDeriveAttr ++ anonStructDecl (Anon.fields_name a.items) ++
    Anon.letSources a.items ++
    (Tok.ident "Anon" ::
      [Tok.braces (sepByComma (a.items.map SpreadItem.field_expansion))]))]

/-! ## Parsers (src/common.rs, src/anon.rs) -/

/-- `input.parse::<syn::Expr>()`: an expression occupies a maximal
nonempty token run containing no top-level comma (commas inside
delimiters live inside a single group token). -/
def takeExpr : List Tok → Except String (List Tok × List Tok) := fun ts =>
  let e := ts.takeWhile (fun t => !t.isComma)
  if e.isEmpty then .error "expected expression"
  else .ok (e, ts.drop e.length)

/-- `input.parse::<syn::Ident>()`: a non-keyword identifier. -/
def parseIdent : List Tok → Except String (String × List Tok)
  | .ident s :: rest =>
      if rustKws.contains s then .error "expected identifier"
      else .ok (s, rest)
  | _ => .error "expected identifier"

/-- `input.call(syn::Ident::parse_any)`: any identifier, keywords
included. -/
def parseIdentAny : List Tok → Except String (String × List Tok)
  | .ident s :: rest => .ok (s, rest)
  | _ => .error "expected identifier"

/-- `SpreadModifier::parse` of `src/common.rs`: dispatches on the
lookahead (`&`, `>`, `+`, a bracketed custom path, or directly an
identifier meaning no modifier); any other lookahead is an error. -/
def SpreadModifier.parse :
    List Tok → Except String (Option SpreadModifier × List Tok)
  | .amp :: rest =>
      match rest with
      | .ident "mut" :: rest2 => .ok (some .RefMut, rest2)
      | .ident _ :: _ => .ok (some .Ref, rest)
      | _ => .error "expected `mut` or identifier"
  | .gt :: rest => .ok (some .Into, rest)
  | .plus :: rest =>
      match rest with
      | .gt :: rest2 => .ok (some .CloneInto, rest2)
      | .ident _ :: _ => .ok (some .Clone, rest)
      | _ => .error "expected `>` or identifier"
  | .brackets content :: rest =>
      if content.isEmpty then .error "expected path"
      else
        match rest with
        | .amp :: rest2 =>
            match rest2 with
            | .ident "mut" :: rest3 => .ok (some (.CustomRefMut content), rest3)
            | .ident _ :: _ => .ok (some (.CustomRef content), rest2)
            | _ => .error "expected `mut` or identifier"
        | _ => .ok (some (.Custom content), rest)
  | .ident s :: rest2 => .ok (none, .ident s :: rest2)
  | _ => .error "expected a field"

/-- `impl Parse for Field` of `src/common.rs`: optional `mut` marker,
optional modifier, a (non-keyword) name, optional `: value`. -/
def Field.parse : List Tok → Except String (Field × List Tok) := fun ts => do
  let (is_mut, ts) :=
    match ts with
    | .ident "mut" :: rest => (true, rest)
    | _ => (false, ts)
  let (modifier, ts) ← SpreadModifier.parse ts
  let (name, ts) ← parseIdent ts
  match ts with
  | .colon :: ts2 => do
      let (value, ts3) ← takeExpr ts2
      .ok (⟨is_mut, modifier, name, some value⟩, ts3)
  | _ => .ok (⟨is_mut, modifier, name, none⟩, ts)

/-- `Punctuated::parse_terminated`: items separated by commas, optional
trailing separator, empty list allowed.  Fuel-based recursion; the
initial fuel is the token count, which suffices because every item
parser consumes at least one token. -/
def parseTerminatedAux (p : List Tok → Except String (α × List Tok)) :
    Nat → List Tok → Except String (List α)
  | _, [] => .ok []
  | 0, _ :: _ => .error "out of fuel"
  | fuel + 1, ts => do
      let (a, rest) ← p ts
      match rest with
      | [] => .ok [a]
      | .comma :: rest2 => do
          let as ← parseTerminatedAux p fuel rest2
          .ok (a :: as)
      | _ => .error "expected `,`"

/-- `Punctuated::parse_terminated` entry point. -/
def parseTerminated (p : List Tok → Except String (α × List Tok))
    (ts : List Tok) : Except String (List α) :=
  parseTerminatedAux p ts.length ts

/-- The intermediate-binding identifier synthesis of
`SpreadList::parse`: fold starting from `"_"`, appending `"_" ++ name`
for every field of the list. -/
def source_ident_of (fields : List Field) : String :=
  fields.foldl (fun buf f => buf ++ "_" ++ f.name) "_"

/-- `impl Parse for SpreadList` of `src/common.rs`: a brace-delimited
comma-terminated field list, mandatory `in`, then the source
expression; the intermediate identifier is synthesized from the field
names.  Note: no emptiness check is performed on the field list. -/
def SpreadList.parse : List Tok → Except String (SpreadList × List Tok)
  | .braces content :: ts1 => do
      let fields ← parseTerminated Field.parse content
      match ts1 with
      | .ident "in" :: ts2 => do
          let (source, ts3) ← takeExpr ts2
          .ok (⟨fields, source, source_ident_of fields⟩, ts3)
      | _ => .error "expected `in`"
  | _ => .error "expected braces"

/-- `impl Parse for SpreadItem` of `src/common.rs`: dispatch on the
lookahead — `{` starts a spread-list, `..` a final-spread, anything
else is tried as a field. -/
def SpreadItem.parse : List Tok → Except String (SpreadItem × List Tok)
  | ts@(.braces _ :: _) => do
      let (sl, rest) ← SpreadList.parse ts
      .ok (.SpreadList sl, rest)
  | .dotdot :: ts1 => do
      let (source, rest) ← takeExpr ts1
      .ok (.FinalSpread source, rest)
  | ts => do
      let (f, rest) ← Field.parse ts
      .ok (.Field f, rest)

/-- Does the item list contain a `FinalSpread`? -/
def hasFinalSpread (items : List SpreadItem) : Bool :=
  items.any fun it =>
    match it with
    | .FinalSpread _ => true
    | _ => false

/-- Does the item list contain a `mut`-prefixed field (directly or
inside a spread-list)? -/
def hasMutField (items : List SpreadItem) : Bool :=
  items.any fun it =>
    match it with
    | .Field f => f.is_mut
    | .SpreadList sl => sl.fields_list.any Field.is_mut
    | .FinalSpread _ => false

/-- `impl Parse for Anon` of `src/anon.rs`: a comma-terminated item
list; rejects an empty list, any `..remaining` item, and any `mut`
prefix. -/
def Anon.parseStream (ts : List Tok) : Except String Anon := do
  let items ← parseTerminated SpreadItem.parse ts
  if items.isEmpty then
    .error "Anon struct must have at least one field"
  else if hasFinalSpread items then
    .error "`..remaining` is not allowed in this macro"
  else if hasMutField items then
    .error "`mut` prefix is not allowed in this macro"
  else
    .ok ⟨items⟩

/-! ## Function-argument-struct generator (proc/src/fn_struct.rs) -/

/-- `input.parse::<syn::Type>()` as used for a field annotation: a
maximal nonempty run stopping at a top-level comma or `=`. -/
def takeType : List Tok → Except String (List Tok × List Tok) := fun ts =>
  let e := ts.takeWhile fun t =>
    match t with
    | .comma => false
    | .eq => false
    | _ => true
  if e.isEmpty then .error "expected type"
  else .ok (e, ts.drop e.length)

/-- `impl Parse for TypedField` of `proc/src/fn_struct.rs`: modifier,
then any identifier; the pseudo-field `self` carries no type and no
value and rejects the `Into`/`Clone`/`CloneInto` modifiers at parse
time; any other name requires `: type` and optionally `= value`. -/
def TypedField.parse : List Tok → Except String (TypedField × List Tok) :=
  fun ts => do
  let (modifier, ts) ← SpreadModifier.parse ts
  let (name, ts) ← parseIdentAny ts
  if name = "self" then
    match modifier with
    | some .Into | some .Clone | some .CloneInto =>
        .error "only `&`, `&mut` or no modifier is allows before `self`"
    | _ => .ok (⟨modifier, name, none, none⟩, ts)
  else
    match ts with
    | .colon :: ts1 => do
        let (type_, ts2) ← takeType ts1
        match ts2 with
        | .eq :: ts3 => do
            let (value, ts4) ← takeExpr ts3
            .ok (⟨modifier, name, some type_, some value⟩, ts4)
        | _ => .ok (⟨modifier, name, some type_, none⟩, ts2)
    | _ => .error "expected `:`"

/-- The all-or-nothing default-value check of `FnStruct::parse`
(`proc/src/fn_struct.rs` lines 209-216): counts the fields carrying a
value; a mixed count is a hard error; otherwise the returned flag
(`impl_default`) records whether any value was present. -/
def checkDefaults (fields : List TypedField) : Except String Bool :=
  let have_value_count := fields.countP fun f => f.value.isSome
  if have_value_count ≠ 0 ∧ have_value_count ≠ fields.length then
    .error "Fields must either all have values (`= value`) or none have"
  else
    .ok (decide (have_value_count > 0))

/-- The parsed field section of a `FnStruct`. -/
structure FnFields where
  self_ : Option TypedField
  fields : List TypedField
  impl_default : Bool
deriving Repr

/-- The field-list portion of `FnStruct::parse`
(`proc/src/fn_struct.rs` lines 183-230): parse the comma-terminated
`TypedField` list, extract a leading `self` (a field with no type),
reject any other untyped field, then apply the default-value check. -/
def fnStructFields (content : List Tok) : Except String FnFields := do
  let fs ← parseTerminated TypedField.parse content
  let (self_, fields) :=
    match fs with
    | first :: rest => if first.type_.isNone then (some first, rest) else (none, fs)
    | [] => (none, [])
  if fields.any fun f => f.type_.isNone then
    .error "`self` is only allowed once in first position"
  else do
    let impl_default ← checkDefaults fields
    .ok ⟨self_, fields, impl_default⟩

/-- The `impl Default` generation of `fn_struct`
(`proc/src/fn_struct.rs` lines 42-56): emitted exactly when the
`impl_default` flag is set; each field is initialised with its declared
default value.  (Generics of the struct are elided in this model.) -/
def fnStructImplDefault (impl_default : Bool) (struct_name : String)
    (fields : List TypedField) : Option (List Tok) :=
  if impl_default then
    some (Tok.ident "impl" :: Tok.colcol :: Tok.ident "core" :: Tok.colcol ::
      Tok.ident "default" :: Tok.colcol :: Tok.ident "Default" ::
      Tok.ident "for" :: Tok.ident struct_name ::
      [Tok.braces (Tok.ident "fn" :: Tok.ident "default" :: Tok.parens [] ::
        [Tok.braces (Tok.ident "Self" ::
          [Tok.braces (sepByComma (fields.map fun f =>
            Tok.ident f.name :: Tok.colon :: f.value.getD []))])])])
  else
    none

/-- The receiver-modifier match of `fn_struct`
(`proc/src/fn_struct.rs` lines 58-71): only `&`, `&mut` or no modifier
render receiver tokens; every other modifier paired with `self` is a
generation-time error. -/
def selfModifierToks : Option SpreadModifier → Except String (List Tok)
  | some .Ref => .ok [Tok.amp]
  | some .RefMut => .ok [Tok.amp, Tok.ident "mut"]
  | none => .ok []
  | _ => .error "only `&`, `&mut` or no modifier is allows before `self`"

/-- A path segment of `syn::ExprPath`: name plus rendered generic
arguments (turbofish), e.g. `Vec::<T>` is `⟨"Vec", toks of ::<T>⟩`. -/
structure PathSeg where
  name : String
  args : List Tok
deriving Repr

/-- `syn::ExprPath`: optional qualified-self base type plus the
segment list. -/
structure ExprPath where
  qself : Option (List Tok)
  segments : List PathSeg
deriving Repr

/-- Render a segment list joined by `::`. -/
def renderPathSegs (segs : List PathSeg) : List Tok :=
  match segs with
  | [] => []
  | [s] => Tok.ident s.name :: s.args
  | s :: rest => Tok.ident s.name :: s.args ++ Tok.colcol :: renderPathSegs rest

/-- The receiver-type derivation of `fn_struct`
(`proc/src/fn_struct.rs` lines 73-102): a qualified trait-item path
`<T as Trait>::item` yields the base type `T`; otherwise the final
segment is popped (`Punctuated::pop` returns `None` only on an empty
segment list, which alone triggers the non-method error) and the
remaining path is the receiver type. -/
def receiverSelfType (p : ExprPath) : Except String (List Tok) :=
  match p.qself with
  | some ty => .ok ty
  | none =>
      match p.segments with
      | [] => .error "Cannot use `self` with a function that is not a method"
      | segs@(_ :: _) => .ok (renderPathSegs segs.dropLast)

/-! ## Field-subset assertion (proc/src/assert_fields_eq.rs) -/

/-- `enum AssertFieldsEq` of `proc/src/assert_fields_eq.rs`; the source
variants are named `List` and `Anon`, renamed `ListForm`/`AnonForm`
here to avoid clashing with `List` and the `Anon` structure. -/
inductive AssertFieldsEq where
  | ListForm (left right : List Tok) (fields : List String) (fmt_args : List Tok)
  | AnonForm (left : List Tok) (anon : Anon) (fmt_args : List Tok)
deriving Repr

/-- `impl Parse for AssertFieldsEq` of `proc/src/assert_fields_eq.rs`:
a left expression, a comma, then either a braced anonymous-struct form
or — only when the lookahead is a plain (non-keyword) identifier — a
right expression, comma, bracketed field-name list (hard error when
empty), with the remaining tokens kept as format arguments. -/
def AssertFieldsEq.parse (ts : List Tok) : Except String AssertFieldsEq := do
  let (left, ts) ← takeExpr ts
  match ts with
  | .comma :: ts1 =>
      match ts1 with
      | .braces content :: ts2 => do
          let anon ← Anon.parseStream content
          .ok (.AnonForm left anon ts2)
      | .ident s :: _ =>
          if rustKws.contains s then .error "expected brace group or identifier"
          else do
            let (right, ts3) ← takeExpr ts1
            match ts3 with
            | .comma :: ts4 =>
                match ts4 with
                | .brackets content :: ts5 => do
                    let fields ← parseTerminated parseIdent content
                    if fields.isEmpty then
                      .error "`Fields list cannot be empty"
                    else
                      .ok (.ListForm left right fields ts5)
                | _ => .error "expected brackets"
            | _ => .error "expected `,`"
      | _ => .error "expected brace group or identifier"
  | _ => .error "expected `,`"

/-! ## The struct-literal top-level grammar (src/spread.rs, `spread_inner!`)

The `spread!` top level matches
`$name:ident { (field ,)* (attr? { spread-fields } in expr ,)* (.. expr)? }`;
the three sections start with pairwise distinct token classes
(identifier / `#[`-or-`{` / `..`), so the token-tree matcher behaves as
the recursive-descent parser below.  An `$x:expr` fragment occupies a
maximal comma-free run, like `takeExpr`. -/

/-- A single field of the `spread_inner!` top level:
`$field:ident $(: $field_value:expr)?`. -/
structure MRField where
  name : String
  value : Option (List Tok)
deriving Repr

/-- A spread-group of the `spread_inner!` top level: optional
`#[...]` attribute, member names (each optionally attributed), and the
source expression. -/
structure MRSpread where
  attr : Option (List Tok)
  fields : List (Option (List Tok) × String)
  source : List Tok
deriving Repr

/-- The parsed `spread_inner!` invocation. -/
structure MRSpreadInner where
  name : String
  fields : List MRField
  spreads : List MRSpread
  remainder : Option (List Tok)
deriving Repr

/-- The single-field section: zero or more `$field:ident $(: $v:expr)? ,`
(the comma is part of each repetition). -/
def parseMRFields : Nat → List Tok →
    Except String (List MRField × List Tok)
  | _, [] => .ok ([], [])
  | 0, ts => .ok ([], ts)
  | fuel + 1, ts =>
      match ts with
      | .ident s :: rest =>
          match rest with
          | .comma :: r2 => do
              let (fs, r3) ← parseMRFields fuel r2
              .ok (⟨s, none⟩ :: fs, r3)
          | .colon :: r2 => do
              let (v, r3) ← takeExpr r2
              match r3 with
              | .comma :: r4 => do
                  let (fs, r5) ← parseMRFields fuel r4
                  .ok (⟨s, some v⟩ :: fs, r5)
              | _ => .error "expected `,`"
          | _ => .error "expected `,` or `:`"
      | _ => .ok ([], ts)

/-- The member list inside a spread-group's braces:
`$( $(#[...])? $spread_field:ident ),+` — at least one member, comma
separated, no trailing comma, consuming the whole brace content. -/
def parseMRSpreadMembers : Nat → List Tok →
    Except String (List (Option (List Tok) × String))
  | 0, _ => .error "out of fuel"
  | fuel + 1, ts =>
      let (attr, ts) :=
        match ts with
        | .pound :: .brackets a :: rest => (some a, rest)
        | _ => (none, ts)
      match ts with
      | [.ident s] => .ok [(attr, s)]
      | .ident s :: .comma :: rest => do
          let ms ← parseMRSpreadMembers fuel rest
          .ok ((attr, s) :: ms)
      | _ => .error "expected identifier"

/-- The spread-group section: zero or more
`$(#[...])? { members } in $spread:expr ,`. -/
def parseMRSpreads : Nat → List Tok →
    Except String (List MRSpread × List Tok)
  | 0, ts => .ok ([], ts)
  | fuel + 1, ts =>
      let (attr, ts1, started) :=
        match ts with
        | .pound :: .brackets a :: rest => (some a, rest, true)
        | _ => (none, ts, false)
      match ts1 with
      | .braces content :: rest => do
          let members ← parseMRSpreadMembers content.length content
          match rest with
          | .ident "in" :: r2 => do
              let (src, r3) ← takeExpr r2
              match r3 with
              | .comma :: r4 => do
                  let (ss, r5) ← parseMRSpreads fuel r4
                  .ok (⟨attr, members, src⟩ :: ss, r5)
              | _ => .error "expected `,`"
          | _ => .error "expected `in`"
      | _ =>
          if started then .error "expected braces"
          else .ok ([], ts1)

/-- The optional trailing `$(.. $remainder:expr)?`: either nothing is
left, or `..` followed by an expression that must consume every
remaining token (no trailing separator). -/
def parseMRRemainder : List Tok → Except String (Option (List Tok))
  | [] => .ok none
  | .dotdot :: rest => do
      let (e, r2) ← takeExpr rest
      match r2 with
      | [] => .ok (some e)
      | _ => .error "unexpected tokens after `..remainder`"
  | _ => .error "expected `..`"

/-- The whole `spread_inner!` top-level grammar of `src/spread.rs`:
`$name:ident { fields spreads remainder? }`. -/
def parseSpreadInner : List Tok → Except String MRSpreadInner
  | [.ident name, .braces content] => do
      let (fields, r1) ← parseMRFields content.length content
      let (spreads, r2) ← parseMRSpreads r1.length r1
      let remainder ← parseMRRemainder r2
      .ok ⟨name, fields, spreads, remainder⟩
  | _ => .error "expected `Name { ... }`"

/-! ## Counting spliced occurrences

`markCounts n ts` counts the occurrences of the atom `marker n`
anywhere in a token stream, descending into delimited groups.  Since no
generator ever produces a `marker`, it models an observable
(side-effecting) position inside a user-written source expression. -/

mutual

/-- Occurrences of `marker n` in one token (descending into groups). -/
def markCount (n : Nat) : Tok → Nat
  | .ident _ => 0
  | .litStr _ => 0
  | .amp => 0
  | .gt => 0
  | .lt => 0
  | .plus => 0
  | .comma => 0
  | .colon => 0
  | .colcol => 0
  | .semi => 0
  | .dot => 0
  | .dotdot => 0
  | .eq => 0
  | .pound => 0
  | .bang => 0
  | .parens ts => markCounts n ts
  | .brackets ts => markCounts n ts
  | .braces ts => markCounts n ts
  | .marker m => if m = n then 1 else 0

/-- Occurrences of `marker n` in a token stream. -/
def markCounts (n : Nat) : List Tok → Nat
  | [] => 0
  | t :: ts => markCount n t + markCounts n ts

end

mutual

/-- Does the identifier `s` occur anywhere in the token (descending
into delimited groups)? -/
def occursIdent (s : String) : Tok → Bool
  | .ident t => t == s
  | .parens ts => occursIdents s ts
  | .brackets ts => occursIdents s ts
  | .braces ts => occursIdents s ts
  | _ => false

/-- Does the identifier `s` occur anywhere in the token stream? -/
def occursIdents (s : String) : List Tok → Bool
  | [] => false
  | t :: ts => occursIdent s t || occursIdents s ts

end

/-- The custom-transform path tokens carried by a modifier (empty for
the non-custom modifiers): the only place a modifier can embed
user-written tokens. -/
def modPathToks : Option SpreadModifier → List Tok
  | some (.Custom p) => p
  | some (.CustomRef p) => p
  | some (.CustomRefMut p) => p
  | _ => []

/-- Every field of an item list, spread-list members included. -/
def collectFields (items : List SpreadItem) : List Field :=
  (items.map fun it =>
    match it with
    | .Field f => [f]
    | .SpreadList sl => sl.fields_list
    | .FinalSpread _ => []).flatten

/-- The one expression a `SpreadItem` embeds (a plain field's explicit
value, a spread-list's source, a final-spread's source); empty for a
value-less field. -/
def splicedExprToks : SpreadItem → List Tok
  | .Field f => f.value.getD []
  | .SpreadList sl => sl.source
  | .FinalSpread e => e

/-- Identifier names separated by comma tokens. -/
def commaSepIdents (names : List String) : List Tok :=
  sepByComma (names.map fun n => [Tok.ident n])

/-- Contribution of one item to the marker count of the `let_sources`
section of `Anon::expand`. -/
def letShare (n : Nat) : SpreadItem → Nat
  | .SpreadList sl => markCounts n sl.source
  | _ => 0

/-- Contribution of one item to the marker count of the struct-literal
section of `Anon::expand` (spread-list fields go through the
intermediate identifier, so a spread-list contributes nothing there). -/
def literalShare (n : Nat) : SpreadItem → Nat
  | .SpreadList _ => 0
  | it => markCounts n (splicedExprToks it)

/-! ## Counting lemmas -/

@[simp] theorem markCounts_nil (n : Nat) : markCounts n [] = 0 := rfl

@[simp] theorem markCounts_cons (n : Nat) (t : Tok) (ts : List Tok) :
    markCounts n (t :: ts) = markCount n t + markCounts n ts := rfl

@[simp] theorem markCount_ident (n : Nat) (s : String) :
    markCount n (.ident s) = 0 := rfl

@[simp] theorem markCount_litStr (n : Nat) (s : String) :
    markCount n (.litStr s) = 0 := rfl

@[simp] theorem markCount_amp (n : Nat) : markCount n .amp = 0 := rfl

@[simp] theorem markCount_gt (n : Nat) : markCount n .gt = 0 := rfl

@[simp] theorem markCount_lt (n : Nat) : markCount n .lt = 0 := rfl

@[simp] theorem markCount_plus (n : Nat) : markCount n .plus = 0 := rfl

@[simp] theorem markCount_comma (n : Nat) : markCount n .comma = 0 := rfl

@[simp] theorem markCount_colon (n : Nat) : markCount n .colon = 0 := rfl

@[simp] theorem markCount_colcol (n : Nat) : markCount n .colcol = 0 := rfl

@[simp] theorem markCount_semi (n : Nat) : markCount n .semi = 0 := rfl

@[simp] theorem markCount_dot (n : Nat) : markCount n .dot = 0 := rfl

@[simp] theorem markCount_dotdot (n : Nat) : markCount n .dotdot = 0 := rfl

@[simp] theorem markCount_eq (n : Nat) : markCount n .eq = 0 := rfl

@[simp] theorem markCount_pound (n : Nat) : markCount n .pound = 0 := rfl

@[simp] theorem markCount_bang (n : Nat) : markCount n .bang = 0 := rfl

@[simp] theorem markCount_parens (n : Nat) (ts : List Tok) :
    markCount n (.parens ts) = markCounts n ts := rfl

@[simp] theorem markCount_brackets (n : Nat) (ts : List Tok) :
    markCount n (.brackets ts) = markCounts n ts := rfl

@[simp] theorem markCount_braces (n : Nat) (ts : List Tok) :
    markCount n (.braces ts) = markCounts n ts := rfl

@[simp] theorem markCounts_append (n : Nat) (a b : List Tok) :
    markCounts n (a ++ b) = markCounts n a + markCounts n b := by
  induction a with
  | nil => simp
  | cons t ts ih => simp [ih]; omega

theorem markCounts_sepByComma (n : Nat) (ls : List (List Tok)) :
    markCounts n (sepByComma ls) = (ls.map (markCounts n)).sum := by
  induction ls with
  | nil => simp [sepByComma, markCounts]
  | cons x xs ih =>
      cases xs with
      | nil => simp [sepByComma, markCounts]
      | cons y ys =>
          simp only [sepByComma, markCounts_append, List.map_cons, List.sum_cons]
          simp [markCounts, markCount] at ih ⊢
          omega

theorem markCounts_value_with_modifiers (n : Nat) (f : Field) (src : List Tok)
    (hp : markCounts n (modPathToks f.modifier) = 0) :
    markCounts n (f.value_with_modifiers src) = markCounts n src := by
  rcases f with ⟨m, mo, nm, v⟩
  match mo with
  | none => rfl
  | some .Ref => simp [Field.value_with_modifiers, markCounts, markCount]
  | some .RefMut => simp [Field.value_with_modifiers, markCounts, markCount]
  | some .Into =>
      simp [Field.value_with_modifiers, markCounts_append, markCounts, markCount]
  | some .Clone =>
      simp [Field.value_with_modifiers, markCounts_append, markCounts, markCount]
  | some .CloneInto =>
      simp [Field.value_with_modifiers, markCounts_append, markCounts, markCount]
  | some (.Custom p) =>
      simp [modPathToks] at hp
      simp [Field.value_with_modifiers, markCounts_append, markCounts, markCount, hp]
  | some (.CustomRef p) =>
      simp [modPathToks] at hp
      simp [Field.value_with_modifiers, markCounts_append, markCounts, markCount, hp]
  | some (.CustomRefMut p) =>
      simp [modPathToks] at hp
      simp [Field.value_with_modifiers, markCounts_append, markCounts, markCount, hp]

theorem markCounts_mutToks (n : Nat) (b : Bool) :
    markCounts n (mutToks b) = 0 := by
  cases b <;> simp [mutToks, markCounts, markCount]

theorem markCounts_letPats (n : Nat) (fl : List Field) :
    markCounts n (letPats fl) = 0 := by
  induction fl with
  | nil => simp [letPats, markCounts]
  | cons f fs ih =>
      simp only [letPats, List.map_cons, List.flatten_cons, markCounts_append]
      simp [letPats] at ih
      simp [markCounts_append, markCounts_mutToks, markCounts, markCount, ih]

theorem markCounts_letVals (n : Nat) (fl : List Field)
    (hp : ∀ f ∈ fl, markCounts n (modPathToks f.modifier) = 0) :
    markCounts n (letVals fl) = 0 := by
  induction fl with
  | nil => simp [letVals, markCounts]
  | cons f fs ih =>
      simp only [letVals, List.map_cons, List.flatten_cons, markCounts_append]
      have h1 := markCounts_value_with_modifiers n f
        [Tok.ident "__source", Tok.dot, Tok.ident f.name] (hp f (by simp))
      simp [markCounts, markCount] at h1
      simp [letVals] at ih
      have h2 := ih (fun g hg => hp g (by simp [hg]))
      simp [markCounts_append, markCounts, markCount, h1, h2]

theorem markCounts_anonDeriveAttr (n : Nat) :
    markCounts n anonDeriveAttr = 0 := by
  simp [anonDeriveAttr, markCounts, markCount]

theorem markCounts_sep_map_zero {α : Type} (n : Nat) (ls : List α)
    (f : α → List Tok) (hf : ∀ x ∈ ls, markCounts n (f x) = 0) :
    markCounts n (sepByComma (ls.map f)) = 0 := by
  rw [markCounts_sepByComma, List.map_map]
  induction ls with
  | nil => simp
  | cons x xs ih =>
      simp only [List.map_cons, List.sum_cons, Function.comp_apply]
      rw [hf x (by simp), ih (fun y hy => hf y (by simp [hy]))]

theorem markCounts_anonStructDecl (n : Nat) (names : List String) :
    markCounts n (anonStructDecl names) = 0 := by
  have h1 := markCounts_sep_map_zero n (Anon.fields_type names)
    (fun t => [Tok.ident t]) (fun s _ => by simp [markCounts, markCount])
  have h2 := markCounts_sep_map_zero n (names.zip (Anon.fields_type names))
    (fun p => [Tok.ident p.1, Tok.colon, Tok.ident p.2])
    (fun p _ => by simp [markCounts, markCount])
  simp [anonStructDecl, markCounts, markCount, markCounts_append, h1, h2]

theorem markCounts_letSources (n : Nat) (items : List SpreadItem) :
    markCounts n (Anon.letSources items) = (items.map (letShare n)).sum := by
  induction items with
  | nil => simp [Anon.letSources, markCounts]
  | cons it its ih =>
      match it with
      | .Field f =>
          have h : Anon.letSources (SpreadItem.Field f :: its) =
              Anon.letSources its := by
            simp [Anon.letSources, List.filterMap_cons]
          rw [h, ih]; simp [letShare]
      | .FinalSpread e =>
          have h : Anon.letSources (SpreadItem.FinalSpread e :: its) =
              Anon.letSources its := by
            simp [Anon.letSources, List.filterMap_cons]
          rw [h, ih]; simp [letShare]
      | .SpreadList sl =>
          have h : Anon.letSources (SpreadItem.SpreadList sl :: its) =
              (Tok.ident "let" :: Tok.ident sl.source_ident :: Tok.eq ::
                sl.source ++ [Tok.semi]) ++ Anon.letSources its := by
            simp [Anon.letSources, List.filterMap_cons]
          rw [h, markCounts_append, ih]
          simp only [List.map_cons, List.sum_cons, letShare]
          simp [markCounts, markCount, markCounts_append]

theorem markCounts_field_expansion (n : Nat) (f : Field) (src : List Tok)
    (hp : markCounts n (modPathToks f.modifier) = 0) :
    markCounts n (f.field_expansion src) = markCounts n src := by
  simp only [Field.field_expansion, markCounts, markCount]
  rw [markCounts_value_with_modifiers n f src hp]
  omega

theorem markCounts_spread_field_expansion (n : Nat) (sl : SpreadList)
    (hp : ∀ f ∈ sl.fields_list, markCounts n (modPathToks f.modifier) = 0) :
    markCounts n sl.field_expansion = 0 := by
  simp only [SpreadList.field_expansion]
  apply markCounts_sep_map_zero
  intro f hf
  rw [markCounts_field_expansion n f _ (hp f hf)]
  simp [markCounts, markCount]

theorem markCounts_item_field_expansion (n : Nat) (it : SpreadItem)
    (hp : ∀ f ∈ collectFields [it], markCounts n (modPathToks f.modifier) = 0) :
    markCounts n it.field_expansion = literalShare n it := by
  match it with
  | .Field f =>
      match hv : f.value with
      | some v =>
          simp only [SpreadItem.field_expansion, hv, literalShare, splicedExprToks]
          rw [markCounts_field_expansion n f v
            (hp f (by simp [collectFields]))]
          simp [hv]
      | none =>
          simp only [SpreadItem.field_expansion, hv, literalShare, splicedExprToks]
          rw [markCounts_field_expansion n f _
            (hp f (by simp [collectFields]))]
          simp [hv, markCounts, markCount]
  | .SpreadList sl =>
      simp only [SpreadItem.field_expansion, literalShare]
      exact markCounts_spread_field_expansion n sl
        (fun f hf => hp f (by simp [collectFields, hf]))
  | .FinalSpread e =>
      simp [SpreadItem.field_expansion, literalShare, splicedExprToks,
        markCounts, markCount]

theorem markCounts_anon_literal (n : Nat) (items : List SpreadItem)
    (hp : ∀ f ∈ collectFields items, markCounts n (modPathToks f.modifier) = 0) :
    markCounts n (sepByComma (items.map SpreadItem.field_expansion)) =
      (items.map (literalShare n)).sum := by
  rw [markCounts_sepByComma, List.map_map]
  induction items with
  | nil => simp
  | cons it its ih =>
      simp only [List.map_cons, List.sum_cons, Function.comp_apply]
      rw [markCounts_item_field_expansion n it
        (fun f hf => hp f (by
          simp only [collectFields, List.map_cons, List.flatten_cons, List.mem_append]
          simp only [collectFields, List.mem_flatten, List.mem_map] at hf
          rcases hf with ⟨l, ⟨j, hj, rfl⟩, hfl⟩
          simp at hj
          subst hj
          exact Or.inl hfl))]
      rw [ih (fun f hf => hp f (by
        simp only [collectFields, List.map_cons, List.flatten_cons, List.mem_append]
        exact Or.inr (by simpa [collectFields] using hf)))]

theorem markCounts_anon_expand (n : Nat) (items : List SpreadItem)
    (hp : ∀ f ∈ collectFields items, markCounts n (modPathToks f.modifier) = 0) :
    markCounts n (Anon.expand ⟨items⟩) =
      (items.map fun it => markCounts n (splicedExprToks it)).sum := by
  have key : ∀ its : List SpreadItem,
      (its.map (letShare n)).sum + (its.map (literalShare n)).sum =
        (its.map fun it => markCounts n (splicedExprToks it)).sum := by
    intro its
    induction its with
    | nil => simp
    | cons it rest ih =>
        simp only [List.map_cons, List.sum_cons]
        match it with
        | .Field f =>
            rw [show letShare n (SpreadItem.Field f) = 0 from rfl,
              show literalShare n (SpreadItem.Field f) =
                markCounts n (splicedExprToks (SpreadItem.Field f)) from rfl]
            omega
        | .SpreadList sl =>
            rw [show letShare n (SpreadItem.SpreadList sl) =
                markCounts n sl.source from rfl,
              show literalShare n (SpreadItem.SpreadList sl) = 0 from rfl,
              show splicedExprToks (SpreadItem.SpreadList sl) = sl.source from rfl]
            omega
        | .FinalSpread e =>
            rw [show letShare n (SpreadItem.FinalSpread e) = 0 from rfl,
              show literalShare n (SpreadItem.FinalSpread e) =
                markCounts n (splicedExprToks (SpreadItem.FinalSpread e)) from rfl]
            omega
  have h1 := markCounts_anonDeriveAttr n
  have h2 := markCounts_anonStructDecl n (Anon.fields_name items)
  have h3 := markCounts_letSources n items
  have h4 := markCounts_anon_literal n items hp
  have e1 : Anon.expand ⟨items⟩ =
      [Tok.braces (anonDeriveAttr ++ anonStructDecl (Anon.fields_name items) ++
        Anon.letSources items ++
        (Tok.ident "Anon" ::
          [Tok.braces (sepByComma (items.map SpreadItem.field_expansion))]))] :=
    rfl
  have e2 : ∀ ts : List Tok, markCounts n [Tok.braces ts] = markCounts n ts := by
    intro ts; show markCounts n ts + 0 = markCounts n ts; omega
  have e3 : ∀ (s : String) (ts : List Tok),
      markCounts n (Tok.ident s :: [Tok.braces ts]) = markCounts n ts := by
    intro s ts; show 0 + (markCounts n ts + 0) = markCounts n ts; omega
  rw [e1, e2, markCounts_append, markCounts_append, markCounts_append,
    h1, h2, h3, e3, h4, ← key items]
  omega

theorem markCounts_let_expansion (n : Nat) (sl : SpreadList)
    (hp : ∀ f ∈ sl.fields_list, markCounts n (modPathToks f.modifier) = 0) :
    markCounts n sl.let_expansion = markCounts n sl.source := by
  have hv := markCounts_letVals n sl.fields_list hp
  have hq := markCounts_letPats n sl.fields_list
  simp [SpreadList.let_expansion, hv, hq]

/-! ## Parsing lemmas -/

theorem takeWhile_notComma_append (e r : List Tok)
    (he : ∀ t ∈ e, t.isComma = false) :
    (e ++ Tok.comma :: r).takeWhile (fun t => !t.isComma) = e := by
  induction e with
  | nil => simp [List.takeWhile, Tok.isComma]
  | cons x xs ih =>
      have hx : x.isComma = false := he x (by simp)
      simp only [List.cons_append, List.takeWhile_cons, hx]
      simp [ih (fun t ht => he t (by simp [ht]))]

theorem takeWhile_notComma_all (e : List Tok)
    (he : ∀ t ∈ e, t.isComma = false) :
    e.takeWhile (fun t => !t.isComma) = e := by
  induction e with
  | nil => rfl
  | cons x xs ih =>
      have hx : x.isComma = false := he x (by simp)
      simp only [List.takeWhile_cons, hx]
      simp [ih (fun t ht => he t (by simp [ht]))]

theorem takeExpr_before_comma (e r : List Tok) (hne : e ≠ [])
    (he : ∀ t ∈ e, t.isComma = false) :
    takeExpr (e ++ Tok.comma :: r) = .ok (e, Tok.comma :: r) := by
  simp only [takeExpr, takeWhile_notComma_append e r he]
  rw [if_neg (by simpa using hne), List.drop_left]

theorem takeExpr_whole (e : List Tok) (hne : e ≠ [])
    (he : ∀ t ∈ e, t.isComma = false) :
    takeExpr e = .ok (e, []) := by
  simp only [takeExpr, takeWhile_notComma_all e he]
  rw [if_neg (by simpa using hne), List.drop_length]

theorem commaSepIdents_nil : commaSepIdents [] = [] := rfl

theorem commaSepIdents_single (s : String) :
    commaSepIdents [s] = [Tok.ident s] := rfl

theorem commaSepIdents_cons (s t : String) (r : List String) :
    commaSepIdents (s :: t :: r) =
      Tok.ident s :: Tok.comma :: commaSepIdents (t :: r) := rfl

theorem length_le_commaSepIdents (names : List String) :
    names.length ≤ (commaSepIdents names).length := by
  induction names with
  | nil => simp [commaSepIdents_nil]
  | cons s r ih =>
      cases r with
      | nil => simp [commaSepIdents_single]
      | cons t r2 =>
          rw [commaSepIdents_cons]
          simp only [List.length_cons] at ih ⊢
          omega

theorem parseTerminatedAux_idents (names : List String) :
    ∀ fuel : Nat, names.length ≤ fuel →
    (∀ s ∈ names, rustKws.contains s = false) →
    parseTerminatedAux parseIdent fuel (commaSepIdents names) = .ok names := by
  induction names with
  | nil => intro fuel _ _; cases fuel <;> rfl
  | cons n rest ih =>
      intro fuel hlen hkw
      match fuel with
      | 0 => simp at hlen
      | f + 1 =>
          have hn : rustKws.contains n = false := hkw n (by simp)
          have hn2 : ¬ (n ∈ rustKws) := by simpa using hn
          cases rest with
          | nil =>
              simp [commaSepIdents_single, parseTerminatedAux, parseIdent, hn2,
                Bind.bind, Except.bind]
          | cons m r2 =>
              rw [commaSepIdents_cons]
              have hr := ih f (by simp at hlen ⊢; omega)
                (fun s hs => hkw s (by simp [hs]))
              simp [parseTerminatedAux, parseIdent, hn2, Bind.bind, Except.bind, hr]

theorem parseTerminated_idents (names : List String)
    (hkw : ∀ s ∈ names, rustKws.contains s = false) :
    parseTerminated parseIdent (commaSepIdents names) = .ok names := by
  exact parseTerminatedAux_idents names (commaSepIdents names).length
    (length_le_commaSepIdents names) hkw

theorem source_ident_of_names (fl : List Field) :
    source_ident_of fl =
      (fl.map Field.name).foldl (fun buf nm => buf ++ "_" ++ nm) "_" := by
  rw [source_ident_of, List.foldl_map]

/-! ## Claims -/

/-- C2: the modifier rendering function produces exactly the stated
shape in all nine cases — `None` is the identity, `Ref`/`RefMut`
prepend `&`/`&mut`, `Into`/`Clone` append `.into()`/`.clone()`,
`CloneInto` is exactly `Into` after `Clone` (and never the reverse
composition), and the custom forms wrap (a reference to) the source in
a call to the path. -/
theorem C2_modifier_rendering (b : Bool) (nm : String) (v : Option (List Tok))
    (src path : List Tok) :
    (Field.mk b none nm v).value_with_modifiers src = src ∧
    (Field.mk b (some .Ref) nm v).value_with_modifiers src = Tok.amp :: src ∧
    (Field.mk b (some .RefMut) nm v).value_with_modifiers src =
      Tok.amp :: Tok.ident "mut" :: src ∧
    (Field.mk b (some .Into) nm v).value_with_modifiers src =
      src ++ [Tok.dot, Tok.ident "into", Tok.parens []] ∧
    (Field.mk b (some .Clone) nm v).value_with_modifiers src =
      src ++ [Tok.dot, Tok.ident "clone", Tok.parens []] ∧
    (Field.mk b (some .CloneInto) nm v).value_with_modifiers src =
      (Field.mk b (some .Into) nm v).value_with_modifiers
        ((Field.mk b (some .Clone) nm v).value_with_modifiers src) ∧
    (Field.mk b (some .CloneInto) nm v).value_with_modifiers src ≠
      (Field.mk b (some .Clone) nm v).value_with_modifiers
        ((Field.mk b (some .Into) nm v).value_with_modifiers src) ∧
    (Field.mk b (some (.Custom path)) nm v).value_with_modifiers src =
      path ++ [Tok.parens src] ∧
    (Field.mk b (some (.CustomRef path)) nm v).value_with_modifiers src =
      path ++ [Tok.parens (Tok.amp :: src)] ∧
    (Field.mk b (some (.CustomRefMut path)) nm v).value_with_modifiers src =
      path ++ [Tok.parens (Tok.amp :: Tok.ident "mut" :: src)] := by
  refine ⟨rfl, rfl, rfl, rfl, rfl, ?_, ?_, rfl, rfl, rfl⟩
  · simp [Field.value_with_modifiers]
  · intro h
    simp only [Field.value_with_modifiers, List.append_assoc] at h
    have h2 := List.append_cancel_left h
    simp at h2

/-- C3 (counterexample): parsing the spread-list `{} in x` — an empty
brace-delimited field list — succeeds rather than failing with a parse
error; the synthesized intermediate identifier degenerates to `_`. -/
theorem C3_empty_spread_list_accepted :
    SpreadList.parse [Tok.braces [], Tok.ident "in", Tok.ident "x"] =
      .ok (⟨[], [Tok.ident "x"], "_"⟩, []) := rfl

/-- C3 (amended): `SpreadList::parse` performs no emptiness check — an
empty brace-delimited field list followed by `in` and any source
expression parses successfully (with intermediate identifier `_`),
while a missing `in` does fail with a parse error. -/
theorem C3_spread_list_parse_amended :
    (∀ e : List Tok, e ≠ [] → (∀ t ∈ e, t.isComma = false) →
      SpreadList.parse (Tok.braces [] :: Tok.ident "in" :: e) =
        .ok (⟨[], e, "_"⟩, [])) ∧
    SpreadList.parse [Tok.braces []] = .error "expected `in`" := by
  refine ⟨?_, rfl⟩
  intro e hne he
  simp [SpreadList.parse, parseTerminated, parseTerminatedAux,
    Bind.bind, Except.bind, takeExpr_whole e hne he, source_ident_of]

/-- C3 (witness). -/
theorem C3_spread_list_parse_amended_witness :
    SpreadList.parse (Tok.braces [] :: Tok.ident "in" :: [Tok.ident "x"]) =
      .ok (⟨[], [Tok.ident "x"], "_"⟩, []) :=
  C3_spread_list_parse_amended.1 [Tok.ident "x"] (by simp)
    (by intro t ht; rw [List.mem_singleton] at ht; subst ht; rfl)

/-- C4 (counterexample): the synthesized intermediate identifiers of
two spread-lists with different field-name lists can collide — `{a, b}
in x` and `{a_b} in y` both synthesize `__a_b`. -/
theorem C4_ident_collision :
    (SpreadList.parse [Tok.braces [Tok.ident "a", Tok.comma, Tok.ident "b"],
        Tok.ident "in", Tok.ident "x"] =
      .ok (⟨[⟨false, none, "a", none⟩, ⟨false, none, "b", none⟩],
        [Tok.ident "x"], "__a_b"⟩, [])) ∧
    (SpreadList.parse [Tok.braces [Tok.ident "a_b"], Tok.ident "in",
        Tok.ident "y"] =
      .ok (⟨[⟨false, none, "a_b", none⟩], [Tok.ident "y"], "__a_b"⟩, [])) ∧
    (["a", "b"] ≠ ["a_b"]) := by
  refine ⟨rfl, rfl, by decide⟩

/-- C4 (amended): the intermediate-binding identifier is derived
deterministically from the field-name list (equal name lists give equal
identifiers), but it is not unique: distinct name lists may collide
when names contain underscores, e.g. `[a, b]` and `[a_b]` both give
`__a_b`. -/
theorem C4_ident_deterministic_not_unique :
    (∀ fl1 fl2 : List Field, fl1.map Field.name = fl2.map Field.name →
      source_ident_of fl1 = source_ident_of fl2) ∧
    source_ident_of [⟨false, none, "a", none⟩, ⟨false, none, "b", none⟩] =
      source_ident_of [⟨false, none, "a_b", none⟩] := by
  constructor
  · intro fl1 fl2 h
    rw [source_ident_of_names, source_ident_of_names, h]
  · rfl

/-- C4 (witness). -/
theorem C4_ident_deterministic_not_unique_witness :
    source_ident_of [⟨false, none, "a", none⟩] =
      source_ident_of [⟨true, some .Ref, "a", some [Tok.marker 0]⟩] :=
  C4_ident_deterministic_not_unique.1 _ _ (by simp)

/-- C7 (counterexample): for a single-segment callable path (a free
function such as `foo`) with a declared receiver, the generator does
NOT emit the promised generation-time error — `Punctuated::pop`
succeeds, leaving an empty path, so the receiver type renders as an
empty token run (invalid code surfaced only by the downstream
compiler). -/
theorem C7_free_function_no_error :
    receiverSelfType ⟨none, [⟨"foo", []⟩]⟩ = .ok [] := rfl

/-- C7 (amended): receiver-type derivation — a qualified trait-item
path yields its base type and a multi-segment path yields the path
minus its final segment; the explanatory non-method error is emitted
only when the segment list is empty (which no parsed path produces),
and a free function instead yields its enclosing-module path (empty for
a single-segment path), deferring the failure to the downstream
compiler. -/
theorem C7_receiver_type_amended :
    (∀ (ty : List Tok) (segs : List PathSeg),
      receiverSelfType ⟨some ty, segs⟩ = .ok ty) ∧
    (∀ (segs : List PathSeg) (last : PathSeg),
      receiverSelfType ⟨none, segs ++ [last]⟩ =
        .ok (renderPathSegs segs)) ∧
    receiverSelfType ⟨none, []⟩ =
      .error "Cannot use `self` with a function that is not a method" := by
  refine ⟨fun ty segs => rfl, ?_, rfl⟩
  intro segs last
  cases segs with
  | nil => rfl
  | cons s ss =>
      show Except.ok (renderPathSegs ((s :: (ss ++ [last])).dropLast)) = _
      rw [show (s :: (ss ++ [last])).dropLast = s :: ss by
        rw [← List.cons_append, List.dropLast_concat]]

/-- C9 (counterexample): the anonymous-type expansion of `anon! { x }`
contains no ordering derive at all — neither `Ord` nor `PartialOrd`
occurs anywhere in the generated tokens, while the equality,
duplication and printing derives are present. -/
theorem C9_no_ordering_derive :
    (occursIdents "Ord"
      (Anon.expand ⟨[.Field ⟨false, none, "x", none⟩]⟩) = false) ∧
    (occursIdents "PartialOrd"
      (Anon.expand ⟨[.Field ⟨false, none, "x", none⟩]⟩) = false) ∧
    (occursIdents "Copy"
      (Anon.expand ⟨[.Field ⟨false, none, "x", none⟩]⟩) = true) ∧
    (occursIdents "Clone"
      (Anon.expand ⟨[.Field ⟨false, none, "x", none⟩]⟩) = true) ∧
    (occursIdents "Debug"
      (Anon.expand ⟨[.Field ⟨false, none, "x", none⟩]⟩) = true) ∧
    (occursIdents "PartialEq"
      (Anon.expand ⟨[.Field ⟨false, none, "x", none⟩]⟩) = true) ∧
    (occursIdents "Eq"
      (Anon.expand ⟨[.Field ⟨false, none, "x", none⟩]⟩) = true) := by
  refine ⟨rfl, rfl, rfl, rfl, rfl, rfl, rfl⟩

/-- C9 (amended): every anonymous-type expansion carries exactly the
constant derive list `Copy, Clone, Debug, PartialEq, Eq` (duplication,
printing and equality, each conditional on the per-field generic
parameters introduced by the struct declaration); no ordering
capability is derived. -/
theorem C9_derive_list_amended (a : Anon) :
    Anon.expand a =
      [Tok.braces (anonDeriveAttr ++
        anonStructDecl (Anon.fields_name a.items) ++
        Anon.letSources a.items ++
        (Tok.ident "Anon" ::
          [Tok.braces (sepByComma (a.items.map SpreadItem.field_expansion))]))] ∧
    anonDeriveAttr = [Tok.pound, Tok.brackets [Tok.ident "derive",
      Tok.parens [Tok.ident "Copy", Tok.comma, Tok.ident "Clone", Tok.comma,
        Tok.ident "Debug", Tok.comma, Tok.ident "PartialEq", Tok.comma,
        Tok.ident "Eq"]]] ∧
    occursIdents "Ord" anonDeriveAttr = false ∧
    occursIdents "PartialOrd" anonDeriveAttr = false := ⟨rfl, rfl, rfl, rfl⟩

/-- C6 (counterexample): a bracketed custom-transform modifier paired
with `self` is NOT rejected at parse time — `[f] self` parses
successfully into a `TypedField`; only the later generation step
rejects it. -/
theorem C6_custom_self_passes_parse :
    TypedField.parse [Tok.brackets [Tok.ident "f"], Tok.ident "self"] =
      .ok (⟨some (.Custom [Tok.ident "f"]), "self", none, none⟩, []) := rfl

/-- C6 (amended): `Into`, `Clone` and `CloneInto` paired with `self`
are rejected at parse time, while the custom-transform modifiers paired
with `self` pass the parser and are rejected only at generation time by
the receiver-modifier match. -/
theorem C6_self_modifier_amended :
    (∀ rest, TypedField.parse (Tok.gt :: Tok.ident "self" :: rest) =
      .error "only `&`, `&mut` or no modifier is allows before `self`") ∧
    (∀ rest, TypedField.parse (Tok.plus :: Tok.ident "self" :: rest) =
      .error "only `&`, `&mut` or no modifier is allows before `self`") ∧
    (∀ rest, TypedField.parse (Tok.plus :: Tok.gt :: Tok.ident "self" :: rest) =
      .error "only `&`, `&mut` or no modifier is allows before `self`") ∧
    (∀ (p rest : List Tok), p ≠ [] →
      TypedField.parse (Tok.brackets p :: Tok.ident "self" :: rest) =
        .ok (⟨some (.Custom p), "self", none, none⟩, rest)) ∧
    (∀ (p rest : List Tok), p ≠ [] →
      TypedField.parse (Tok.brackets p :: Tok.amp :: Tok.ident "self" :: rest) =
        .ok (⟨some (.CustomRef p), "self", none, none⟩, rest)) ∧
    (∀ p, selfModifierToks (some (.Custom p)) =
      .error "only `&`, `&mut` or no modifier is allows before `self`") ∧
    (∀ p, selfModifierToks (some (.CustomRef p)) =
      .error "only `&`, `&mut` or no modifier is allows before `self`") ∧
    (∀ p, selfModifierToks (some (.CustomRefMut p)) =
      .error "only `&`, `&mut` or no modifier is allows before `self`") := by
  refine ⟨fun rest => rfl, fun rest => rfl, fun rest => rfl, ?_, ?_,
    fun p => rfl, fun p => rfl, fun p => rfl⟩
  · intro p rest hp
    cases p with
    | nil => exact absurd rfl hp
    | cons a as =>
        simp [TypedField.parse, SpreadModifier.parse, parseIdentAny,
          Bind.bind, Except.bind]
  · intro p rest hp
    cases p with
    | nil => exact absurd rfl hp
    | cons a as =>
        simp [TypedField.parse, SpreadModifier.parse, parseIdentAny,
          Bind.bind, Except.bind]

/-- C6 (witness). -/
theorem C6_self_modifier_amended_witness :
    TypedField.parse [Tok.brackets [Tok.ident "g"], Tok.amp, Tok.ident "self"] =
      .ok (⟨some (.CustomRef [Tok.ident "g"]), "self", none, none⟩, []) :=
  C6_self_modifier_amended.2.2.2.2.1 [Tok.ident "g"] [] (by simp)

/-- C8 (counterexample): a field list consisting only of `&mut self`
parses successfully with zero stored fields; every (zero) field then
vacuously carries a default, yet `impl_default` is `false` and no
default-value implementation is emitted — refuting the claim's
"emitted exactly when every field carries a default". -/
theorem C8_empty_fields_no_default_impl :
    (fnStructFields [Tok.amp, Tok.ident "mut", Tok.ident "self"] =
      .ok ⟨some ⟨some .RefMut, "self", none, none⟩, [], false⟩) ∧
    (([] : List TypedField).all (fun f => f.value.isSome) = true) ∧
    fnStructImplDefault false "S" [] = none := ⟨rfl, rfl, rfl⟩

/-- C8 (amended): mixed defaults are a hard parse error; the default
check succeeds with flag `true` exactly when the (non-receiver) field
list is nonempty and every field carries a default; the default-value
implementation is emitted exactly when that flag is set. -/
theorem C8_defaults_amended :
    (∀ fl : List TypedField,
      (∃ f ∈ fl, f.value.isSome = true) → (∃ f ∈ fl, f.value.isSome = false) →
      checkDefaults fl =
        .error "Fields must either all have values (`= value`) or none have") ∧
    (∀ fl : List TypedField,
      checkDefaults fl = .ok true ↔
        fl ≠ [] ∧ ∀ f ∈ fl, f.value.isSome = true) ∧
    (∀ (b : Bool) (nm : String) (fl : List TypedField),
      (fnStructImplDefault b nm fl).isSome = b) := by
  refine ⟨?_, ?_, ?_⟩
  · intro fl h1 h2
    have hpos : 0 < fl.countP (fun f => f.value.isSome) :=
      List.countP_pos_iff.2 h1
    have hlt : fl.countP (fun f => f.value.isSome) ≠ fl.length := by
      intro he
      rcases h2 with ⟨f, hf, hv⟩
      have := (List.countP_eq_length).1 he f hf
      rw [hv] at this
      exact Bool.false_ne_true this
    rw [checkDefaults, if_pos ⟨by omega, hlt⟩]
  · intro fl
    constructor
    · intro h
      rw [checkDefaults] at h
      by_cases hc : fl.countP (fun f => f.value.isSome) ≠ 0 ∧
          fl.countP (fun f => f.value.isSome) ≠ fl.length
      · rw [if_pos hc] at h; exact absurd h (by simp)
      · rw [if_neg hc] at h
        have hd : decide (fl.countP (fun f => f.value.isSome) > 0) = true := by
          injection h
        have hpos : 0 < fl.countP (fun f => f.value.isSome) := of_decide_eq_true hd
        push_neg at hc
        have hlen : fl.countP (fun f => f.value.isSome) = fl.length :=
          hc (by omega)
        refine ⟨?_, (List.countP_eq_length).1 hlen⟩
        intro hnil
        subst hnil
        simp at hpos
    · rintro ⟨hne, hall⟩
      have hlen : fl.countP (fun f => f.value.isSome) = fl.length :=
        (List.countP_eq_length).2 hall
      have hpos : 0 < fl.length := by
        cases fl with
        | nil => exact absurd rfl hne
        | cons a as => simp
      rw [checkDefaults, if_neg (by omega)]
      simp [hlen, hpos]
  · intro b nm fl
    cases b <;> simp [fnStructImplDefault]

/-- C8 (witness). -/
theorem C8_defaults_amended_witness :
    checkDefaults [⟨none, "a", some [Tok.ident "u32"], some [Tok.ident "x"]⟩,
        ⟨none, "b", some [Tok.ident "u32"], none⟩] =
      .error "Fields must either all have values (`= value`) or none have" :=
  C8_defaults_amended.1 _
    (⟨⟨none, "a", some [Tok.ident "u32"], some [Tok.ident "x"]⟩, by simp, rfl⟩)
    (⟨⟨none, "b", some [Tok.ident "u32"], none⟩, by simp, rfl⟩)

/-- C10 (counterexample): in the field-subset assertion's list form a
well-formed second expression that does not begin with a plain
identifier — here `&y` — is rejected by the lookahead, refuting "for
every pair of well-formed expressions the parse succeeds". -/
theorem C10_second_expr_lookahead :
    AssertFieldsEq.parse [Tok.ident "x", Tok.comma, Tok.amp, Tok.ident "y",
      Tok.comma, Tok.brackets [Tok.ident "a"]] =
      .error "expected brace group or identifier" := rfl

/-- C10 (amended): the list form parses
`<expr> , <expr> , [ <ident>* ] <extra>` whenever the second expression
begins with a plain (non-keyword) identifier; an empty bracketed field
list is a hard parse error, a nonempty one succeeds with the remaining
tokens kept as format arguments. -/
theorem C10_list_form_amended (l r fmt : List Tok) (s : String)
    (names : List String)
    (hl : l ≠ []) (hlc : ∀ t ∈ l, t.isComma = false)
    (hrc : ∀ t ∈ r, t.isComma = false)
    (hs : rustKws.contains s = false)
    (hn : ∀ nm ∈ names, rustKws.contains nm = false) :
    AssertFieldsEq.parse (l ++ Tok.comma :: Tok.ident s ::
        (r ++ Tok.comma :: Tok.brackets (commaSepIdents names) :: fmt)) =
      if names.isEmpty then .error "`Fields list cannot be empty"
      else .ok (.ListForm l (Tok.ident s :: r) names fmt) := by
  have e2c : ∀ t ∈ Tok.ident s :: r, t.isComma = false := by
    intro t ht
    rcases List.mem_cons.1 ht with h | h
    · subst h; rfl
    · exact hrc t h
  have h1 := takeExpr_before_comma l
    (Tok.ident s :: (r ++ Tok.comma :: Tok.brackets (commaSepIdents names) :: fmt))
    hl hlc
  have h3 := takeExpr_before_comma (Tok.ident s :: r)
    (Tok.brackets (commaSepIdents names) :: fmt) (by simp) e2c
  rw [show (Tok.ident s :: r) ++
      (Tok.comma :: Tok.brackets (commaSepIdents names) :: fmt) =
      Tok.ident s :: (r ++ Tok.comma :: Tok.brackets (commaSepIdents names) :: fmt)
    by simp] at h3
  have h4 := parseTerminated_idents names hn
  have hs2 : ¬ (s ∈ rustKws) := by simpa using hs
  simp [AssertFieldsEq.parse, Bind.bind, Except.bind, h1, h3, h4, hs2]

/-- C10 (witness). -/
theorem C10_list_form_amended_witness :
    AssertFieldsEq.parse [Tok.ident "x", Tok.comma, Tok.ident "y",
        Tok.comma, Tok.brackets [Tok.ident "a"]] =
      .ok (.ListForm [Tok.ident "x"] [Tok.ident "y"] ["a"] []) := by
  have h := C10_list_form_amended [Tok.ident "x"] [] [] "y" ["a"]
    (by simp)
    (by intro t ht; rw [List.mem_singleton] at ht; subst ht; rfl)
    (by intro t ht; exact absurd ht (List.not_mem_nil t))
    rfl
    (by intro nm hnm; rw [List.mem_singleton] at hnm; subst hnm; rfl)
  exact h

/-- Helper: the single-field section of `spread_inner!` matches zero
iterations on a `..`-headed stream. -/
theorem parseMRFields_dotdot (fuel : Nat) (rest : List Tok) :
    parseMRFields fuel (Tok.dotdot :: rest) = .ok ([], Tok.dotdot :: rest) := by
  cases fuel <;> rfl

/-- Helper: the spread-group section of `spread_inner!` matches zero
iterations on a `..`-headed stream. -/
theorem parseMRSpreads_dotdot (fuel : Nat) (rest : List Tok) :
    parseMRSpreads fuel (Tok.dotdot :: rest) = .ok ([], Tok.dotdot :: rest) := by
  cases fuel <;> rfl

/-- C5: in the struct-literal (spread) top-level grammar a final-spread
is accepted only as the syntactically last item with no trailing
separator: any `.. expr ,` followed by anything (another item, a second
final-spread, or nothing — i.e. a trailing comma) fails to match,
both when the final-spread is the first item and when it follows a
field, while `field , .. expr` with nothing after is accepted with the
final-spread as the last component. -/
theorem C5_final_spread_last (name x : String) (e tail : List Tok)
    (hne : e ≠ []) (he : ∀ t ∈ e, t.isComma = false) :
    (parseSpreadInner [Tok.ident name,
        Tok.braces (Tok.dotdot :: (e ++ Tok.comma :: tail))] =
      .error "unexpected tokens after `..remainder`") ∧
    (parseSpreadInner [Tok.ident name,
        Tok.braces (Tok.ident x :: Tok.comma :: Tok.dotdot ::
          (e ++ Tok.comma :: tail))] =
      .error "unexpected tokens after `..remainder`") ∧
    (parseSpreadInner [Tok.ident name,
        Tok.braces (Tok.ident x :: Tok.comma :: Tok.dotdot :: e)] =
      .ok ⟨name, [⟨x, none⟩], [], some e⟩) := by
  have ht1 := takeExpr_before_comma e tail hne he
  have ht2 := takeExpr_whole e hne he
  refine ⟨?_, ?_, ?_⟩
  · simp [parseSpreadInner, parseMRFields_dotdot, parseMRSpreads_dotdot,
      parseMRRemainder, Bind.bind, Except.bind, ht1]
  · simp [parseSpreadInner, parseMRFields, parseMRFields_dotdot,
      parseMRSpreads_dotdot, parseMRRemainder, Bind.bind, Except.bind, ht1]
  · simp [parseSpreadInner, parseMRFields, parseMRFields_dotdot,
      parseMRSpreads_dotdot, parseMRRemainder, Bind.bind, Except.bind, ht2]

/-- C5 (witness). -/
theorem C5_final_spread_last_witness :
    parseSpreadInner [Tok.ident "S",
        Tok.braces [Tok.ident "x", Tok.comma, Tok.dotdot, Tok.ident "d"]] =
      .ok ⟨"S", [⟨"x", none⟩], [], some [Tok.ident "d"]⟩ :=
  (C5_final_spread_last "S" "x" [Tok.ident "d"] [] (by simp)
    (by intro t ht; rw [List.mem_singleton] at ht; subst ht; rfl)).2.2

/-- C1: for every spread-list (with at least one field, none of whose
custom-transform paths contains the observed marker), the generated
code splices the source expression exactly once — the multi-binding
expansion binds it to `__source` and draws every field value through
`__source.name`, and the anonymous expansion binds each spread-list's
source once in the `let` prologue so that the whole output contains
each embedded expression's tokens exactly once. -/
theorem C1_source_spliced_once (sl : SpreadList) (n : Nat)
    (hne : sl.fields_list ≠ [])
    (hp : ∀ f ∈ sl.fields_list, markCounts n (modPathToks f.modifier) = 0) :
    (sl.let_expansion =
      [Tok.ident "let", Tok.parens (letPats sl.fields_list), Tok.eq,
       Tok.braces (Tok.ident "let" :: Tok.ident "__source" :: Tok.eq ::
         sl.source ++ (Tok.semi :: [Tok.parens (letVals sl.fields_list)])),
       Tok.semi]) ∧
    markCounts n sl.let_expansion = markCounts n sl.source ∧
    (sl.field_expansion = sepByComma (sl.fields_list.map fun f =>
      f.field_expansion [Tok.ident sl.source_ident, Tok.dot, Tok.ident f.name])) ∧
    (∀ items : List SpreadItem,
      (∀ f ∈ collectFields items, markCounts n (modPathToks f.modifier) = 0) →
      markCounts n (Anon.expand ⟨items⟩) =
        (items.map fun it => markCounts n (splicedExprToks it)).sum) :=
  ⟨rfl, markCounts_let_expansion n sl hp, rfl,
    fun items hp2 => markCounts_anon_expand n items hp2⟩

/-- C1 (witness): a one-field spread-list whose source is a bare
marker; both expansions contain the marker exactly once. -/
theorem C1_source_spliced_once_witness :
    markCounts 0 (SpreadList.let_expansion
      ⟨[⟨false, none, "a", none⟩], [Tok.marker 0], "__a"⟩) = 1 ∧
    markCounts 0 (Anon.expand
      ⟨[.SpreadList ⟨[⟨false, none, "a", none⟩], [Tok.marker 0], "__a"⟩]⟩) = 1 := by
  have h := C1_source_spliced_once
    ⟨[⟨false, none, "a", none⟩], [Tok.marker 0], "__a"⟩ 0 (by simp)
    (by intro f hf; rw [List.mem_singleton] at hf; subst hf; rfl)
  constructor
  · rw [h.2.1]; rfl
  · rw [h.2.2.2 _ (by
      intro f hf
      simp [collectFields] at hf
      subst hf
      rfl)]
    rfl

end SpreadMacros
